import Mathlib

/- Shallow embedding of the aggregate-function state engine of
   src/dbms/include/DB/AggregateFunctions/IAggregateFunction.h:
   the descriptor interface with its default method bodies, the generic
   state helper IAggregateFunctionHelper, and the state-level contract of
   the merge and serialization operations. -/

/-- Error codes named by the exceptions thrown in IAggregateFunction.h. -/
inductive ErrorCode where
  | AGGREGATE_FUNCTION_DOESNT_ALLOW_PARAMETERS
  | NOT_IMPLEMENTED
  deriving DecidableEq, Repr

/-- Exception of the DB namespace: a message and an error code. -/
structure DBException where
  message : String
  code : ErrorCode
  deriving DecidableEq, Repr

/-- Identity of one aggregate function descriptor: what the virtual getName
returns, used by the default method bodies when they build their messages. -/
structure AggregateFunctionRef where
  getName : String
  deriving DecidableEq, Repr

/-- Read buffer handed to deserialize calls: bytes and a read position. -/
structure ReadBuffer where
  data : List Nat
  pos : Nat
  deriving DecidableEq, Repr

/-- Default body of IAggregateFunction.setParameters: it builds the message
from getName and throws, returning the descriptor unchanged next to the
thrown exception. -/
def setParametersDefault {α : Type} (f : AggregateFunctionRef) (params : List α) :
    Except DBException Unit × AggregateFunctionRef :=
  (Except.error ⟨"Aggregate function " ++ f.getName ++ " doesn\'t allow parameters.",
    ErrorCode.AGGREGATE_FUNCTION_DOESNT_ALLOW_PARAMETERS⟩, f)

/-- Default body of IAggregateFunction.serializeText: it throws NOT_IMPLEMENTED
before writing anything, leaving the state memory and the write buffer
unchanged. -/
def serializeTextDefault {σ : Type} (f : AggregateFunctionRef) (mem : Nat → Option σ)
    (place : Nat) (buf : List Nat) :
    Except DBException Unit × (Nat → Option σ) × List Nat :=
  (Except.error ⟨"Method serializeText is not supported for " ++ f.getName ++ ".",
    ErrorCode.NOT_IMPLEMENTED⟩, mem, buf)

/-- Default body of IAggregateFunction.deserializeMergeText: it throws
NOT_IMPLEMENTED before reading anything, leaving the state memory and the
read buffer, its position included, unchanged. -/
def deserializeMergeTextDefault {σ : Type} (f : AggregateFunctionRef)
    (mem : Nat → Option σ) (place : Nat) (buf : ReadBuffer) :
    Except DBException Unit × (Nat → Option σ) × ReadBuffer :=
  (Except.error ⟨"Method deserializeMergeText is not supported for " ++ f.getName ++ ".",
    ErrorCode.NOT_IMPLEMENTED⟩, mem, buf)

/-- Default body of IAggregateFunction.canBeFinal. -/
def canBeFinalDefault : Bool := true

/-- Member field of a concrete aggregate-state layout type: a fixed-size
numeric field of the given width in bytes, or a member owning a dynamically
sized heap buffer. -/
inductive LayoutField where
  | numeric (width : Nat)
  | dynBuffer
  deriving DecidableEq, Repr

/-- Compile-time triviality of one field destructor: a numeric field is
trivially destructible, a dynamically sized buffer member is not. -/
def LayoutField.triviallyDestructible : LayoutField → Bool
  | .numeric _ => true
  | .dynBuffer => false

/-- Size in bytes of one member: the numeric width, or pointer plus length
words for a buffer member. -/
def LayoutField.sizeBytes : LayoutField → Nat
  | .numeric w => w
  | .dynBuffer => 16

/-- Alignment requirement of one member. -/
def LayoutField.alignBytes : LayoutField → Nat
  | .numeric w => w
  | .dynBuffer => 8

/-- Runtime value of one field: default construction zero-initializes a
numeric field and leaves a buffer member empty. -/
inductive FieldVal where
  | num (v : Nat)
  | buf (content : List Nat)
  deriving DecidableEq, Repr

/-- Value a default-constructed member holds. -/
def LayoutField.defaultVal : LayoutField → FieldVal
  | .numeric _ => .num 0
  | .dynBuffer => .buf []

/-- Concrete state layout type T that IAggregateFunctionHelper takes as its
template parameter: an ordered sequence of members. -/
structure StateLayout where
  fields : List LayoutField
  deriving DecidableEq, Repr

/-- Offset rounded up to the given alignment. -/
def alignUp (off a : Nat) : Nat := if a = 0 then off else (off + a - 1) / a * a

/-- Alignment requirement of the whole layout: the largest member alignment. -/
def structAlign (L : StateLayout) : Nat :=
  L.fields.foldl (fun m f => max m f.alignBytes) 1

/-- End offset after placing every member at its aligned offset in order. -/
def structEnd : Nat → List LayoutField → Nat
  | off, [] => off
  | off, f :: fs => structEnd (alignUp off f.alignBytes + f.sizeBytes) fs

/-- Value of sizeof for the layout: members placed at aligned offsets, the
total rounded up to the struct alignment, an empty struct occupying one
byte. -/
def structSize (L : StateLayout) : Nat :=
  max 1 (alignUp (structEnd 0 L.fields) (structAlign L))

/-- Default value of the whole layout, as placement new of Data builds it. -/
def defaultValue (L : StateLayout) : List FieldVal :=
  L.fields.map LayoutField.defaultVal

/-- IAggregateFunctionHelper.create: placement new of a default Data value at
the given place of the caller-owned memory. -/
def helperCreate (L : StateLayout) (mem : Nat → Option (List FieldVal))
    (place : Nat) : Nat → Option (List FieldVal) :=
  fun a => if a = place then some (defaultValue L) else mem a

/-- IAggregateFunctionHelper.destroy: placement destruction of the Data value
at the given place. -/
def helperDestroy (mem : Nat → Option (List FieldVal)) (place : Nat) :
    Nat → Option (List FieldVal) :=
  fun a => if a = place then none else mem a

/-- IAggregateFunctionHelper.hasTrivialDestructor: compiler introspection over
Data, true exactly when every member is trivially destructible. -/
def helperHasTrivialDestructor (L : StateLayout) : Bool :=
  L.fields.all LayoutField.triviallyDestructible

/-- IAggregateFunctionHelper.sizeOfData: sizeof Data. -/
def helperSizeOfData (L : StateLayout) : Nat := structSize L

/-- IAggregateFunctionHelper.alignOfData: alignment requirement of Data. -/
def helperAlignOfData (L : StateLayout) : Nat := structAlign L

/-- Whether the layout owns a member that requires explicit destruction,
that is, a dynamically sized buffer member. -/
def needsExplicitDestruction (L : StateLayout) : Bool :=
  L.fields.any fun f => match f with | .dynBuffer => true | _ => false

/-- Per-field triviality over a list is the negation of holding a buffer
member. -/
theorem all_trivial_eq_not_any (fs : List LayoutField) :
    fs.all LayoutField.triviallyDestructible =
      !(fs.any fun f => match f with | .dynBuffer => true | _ => false) := by
  induction fs with
  | nil => rfl
  | cons f fs ih =>
    cases f <;>
      simp [List.all_cons, List.any_cons, ih, LayoutField.triviallyDestructible]

/-- C3: the default setParameters fails with the ParametersNotAllowed error
for every parameter array, and the error message names the function. -/
theorem setParameters_default_rejects {α : Type} (f : AggregateFunctionRef)
    (params : List α) :
    ∃ e : DBException,
      (setParametersDefault f params).1 = Except.error e ∧
      e.code = ErrorCode.AGGREGATE_FUNCTION_DOESNT_ALLOW_PARAMETERS ∧
      e.message = "Aggregate function " ++ f.getName ++ " doesn\'t allow parameters." ∧
      ∃ p q, e.message = p ++ f.getName ++ q :=
  ⟨_, rfl, rfl, rfl, "Aggregate function ", " doesn\'t allow parameters.", rfl⟩

/-- C5: the default serializeText and deserializeMergeText fail with the
NotImplemented error for every state address and buffer, and the error
message names the function. -/
theorem textual_defaults_not_implemented {σ : Type} (f : AggregateFunctionRef)
    (mem : Nat → Option σ) (place : Nat) (wbuf : List Nat) (rbuf : ReadBuffer) :
    (∃ e : DBException,
      (serializeTextDefault f mem place wbuf).1 = Except.error e ∧
      e.code = ErrorCode.NOT_IMPLEMENTED ∧
      ∃ p q, e.message = p ++ f.getName ++ q) ∧
    (∃ e : DBException,
      (deserializeMergeTextDefault f mem place rbuf).1 = Except.error e ∧
      e.code = ErrorCode.NOT_IMPLEMENTED ∧
      ∃ p q, e.message = p ++ f.getName ++ q) :=
  ⟨⟨_, rfl, rfl, "Method serializeText is not supported for ", ".", rfl⟩,
   ⟨_, rfl, rfl, "Method deserializeMergeText is not supported for ", ".", rfl⟩⟩

/-- C8: canBeFinal defaults to true for every function that does not override
it. -/
theorem canBeFinal_default : canBeFinalDefault = true := rfl

/-- C10: the default setParameters, serializeText and deserializeMergeText
raise their errors atomically — the descriptor, the state memory and the
buffers come back unchanged, and the default deserializeMergeText consumes
nothing from its read buffer. -/
theorem defaults_raise_atomically {α σ : Type} (f : AggregateFunctionRef)
    (params : List α) (mem : Nat → Option σ) (place : Nat) (wbuf : List Nat)
    (rbuf : ReadBuffer) :
    (setParametersDefault f params).2 = f ∧
    (serializeTextDefault f mem place wbuf).2.1 = mem ∧
    (serializeTextDefault f mem place wbuf).2.2 = wbuf ∧
    (deserializeMergeTextDefault f mem place rbuf).2.1 = mem ∧
    (deserializeMergeTextDefault f mem place rbuf).2.2 = rbuf ∧
    (deserializeMergeTextDefault f mem place rbuf).2.2.pos = rbuf.pos :=
  ⟨rfl, rfl, rfl, rfl, rfl, rfl⟩

/-- C4: the generic state helper placement-constructs the default value at
place, placement-destructs at place, reports a trivial destructor exactly
when the layout needs no explicit destruction (only fixed-size numeric
fields, no dynamically sized buffer member), and reports sizeof and the
alignment requirement of the layout. -/
theorem helper_state_contract (L : StateLayout)
    (mem : Nat → Option (List FieldVal)) (place : Nat) :
    helperCreate L mem place place = some (defaultValue L) ∧
    helperDestroy mem place place = none ∧
    helperHasTrivialDestructor L = !needsExplicitDestruction L ∧
    helperSizeOfData L = structSize L ∧
    helperAlignOfData L = structAlign L :=
  ⟨by simp [helperCreate], by simp [helperDestroy],
   all_trivial_eq_not_any L.fields, rfl, rfl⟩

/-- Bytes of a little-endian fixed-width binary encoding, least significant
byte first. -/
def bytesOfNat : Nat → Nat → List Nat
  | 0, _ => []
  | k + 1, n => n % 256 :: bytesOfNat k (n / 256)

/-- Value read back from little-endian bytes. -/
def natOfBytes : List Nat → Nat
  | [] => 0
  | b :: bs => b + 256 * natOfBytes bs

/-- Modelled from the spec: the count aggregate function of the distributed
count scenario. Concrete aggregate function implementations are not under
src, only the virtual interface is; the state is one UInt64 counter, machine
arithmetic modelled as Nat reduced modulo 2 ^ 64. create builds the zero
state. -/
def countCreate : Nat := 0

/-- Modelled from the spec: add folds one row into the counter. -/
def countAdd (s : Nat) : Nat := (s + 1) % 2 ^ 64

/-- Modelled from the spec: merge combines the state at rhs into the
counter. -/
def countMerge (s rhs : Nat) : Nat := (s + rhs) % 2 ^ 64

/-- Modelled from the spec: serialize emits the counter as an opaque
self-contained binary blob of eight little-endian bytes. -/
def countSerialize (s : Nat) : List Nat := bytesOfNat 8 s

/-- Modelled from the spec: deserializeMerge reads a blob produced by
countSerialize and merges it into the state, as a temporary state built from
the blob and then merged. -/
def countDeserializeMerge (s : Nat) (buf : List Nat) : Option (Nat × List Nat) :=
  if 8 ≤ buf.length then
    some (countMerge s (natOfBytes (buf.take 8)), buf.drop 8)
  else none

/-- Modelled from the spec: insertResultInto finalizes the counter into one
output value. -/
def countFinalize (s : Nat) : Nat := s

/-- States of the count function reachable by create, add and merge. -/
inductive CountReached : Nat → Prop where
  | created : CountReached countCreate
  | added : ∀ {s : Nat}, CountReached s → CountReached (countAdd s)
  | merged : ∀ {s t : Nat}, CountReached s → CountReached t →
      CountReached (countMerge s t)

/-- States that received at least one add or merge since construction. -/
inductive CountNonEmpty : Nat → Prop where
  | added : ∀ {s : Nat}, CountReached s → CountNonEmpty (countAdd s)
  | merged : ∀ {s t : Nat}, CountReached s → CountReached t →
      CountNonEmpty (countMerge s t)

/-- Every non-empty count state fits the machine word. -/
theorem countNonEmpty_lt (s : Nat) (h : CountNonEmpty s) : s < 2 ^ 64 := by
  cases h with
  | added _ => exact Nat.mod_lt _ (by norm_num)
  | merged _ _ => exact Nat.mod_lt _ (by norm_num)

/-- Length of the fixed-width encoding. -/
theorem length_bytesOfNat (k : Nat) : ∀ n : Nat, (bytesOfNat k n).length = k := by
  induction k with
  | zero => intro n; rfl
  | succ k ih => intro n; simp [bytesOfNat, ih]

/-- Splitting one byte off a modulus product. -/
theorem mod_byte_split (n P : Nat) (hP : 0 < P) :
    n % (256 * P) = n % 256 + 256 * (n / 256 % P) := by
  conv_lhs => rw [← Nat.div_add_mod n 256]
  rw [Nat.add_mod, Nat.mul_mod_mul_left]
  have h1 : n % 256 < 256 := Nat.mod_lt _ (by norm_num)
  have h2 : n / 256 % P < P := Nat.mod_lt _ hP
  have h3 : n % 256 % (256 * P) = n % 256 := by
    refine Nat.mod_eq_of_lt ?_
    calc n % 256 < 256 := h1
      _ = 256 * 1 := by norm_num
      _ ≤ 256 * P := Nat.mul_le_mul_left 256 hP
  rw [h3, Nat.mod_eq_of_lt (by omega)]
  omega

/-- Round trip of the little-endian encoding. -/
theorem natOfBytes_bytesOfNat (k : Nat) :
    ∀ n : Nat, natOfBytes (bytesOfNat k n) = n % 256 ^ k := by
  induction k with
  | zero => intro n; simp [bytesOfNat, natOfBytes, Nat.mod_one]
  | succ k ih =>
    intro n
    have hstep : natOfBytes (bytesOfNat (k + 1) n) =
        n % 256 + 256 * (n / 256 % 256 ^ k) := by
      simp [bytesOfNat, natOfBytes, ih]
    rw [hstep, ← mod_byte_split n (256 ^ k) (Nat.pos_pow_of_pos k (by norm_num))]
    rw [pow_succ, Nat.mul_comm (256 ^ k) 256]

/-- Deserializing a serialized value merges it in and consumes the whole
blob. -/
theorem countDeserializeMerge_serialize (t s : Nat) (hs : s < 2 ^ 64) :
    countDeserializeMerge t (countSerialize s) = some (countMerge t s, []) := by
  have hlen : (countSerialize s).length = 8 := length_bytesOfNat 8 s
  have htake : (countSerialize s).take 8 = countSerialize s := by
    conv_lhs => rw [← hlen]
    exact List.take_length _
  have hdrop : (countSerialize s).drop 8 = [] := by
    conv_lhs => rw [← hlen]
    exact List.drop_length _
  have hval : natOfBytes (countSerialize s) = s := by
    have h := natOfBytes_bytesOfNat 8 s
    rw [show (256 : Nat) ^ 8 = 2 ^ 64 by norm_num, Nat.mod_eq_of_lt hs] at h
    exact h
  unfold countDeserializeMerge
  rw [if_pos (by omega), htake, hdrop, hval]

/-- C2: deserializeMerge of a serialized non-empty state into a fresh state
recovers that state, so it finalizes identically, and deserializeMerge into
any state behaves as a temporary state built from the blob and then
merged. -/
theorem serialize_roundtrip (s t : Nat) (hs : CountNonEmpty s) :
    countDeserializeMerge countCreate (countSerialize s) = some (s, []) ∧
    countDeserializeMerge t (countSerialize s) = some (countMerge t s, []) := by
  have hlt := countNonEmpty_lt s hs
  constructor
  · have h := countDeserializeMerge_serialize countCreate s hlt
    rwa [show countMerge countCreate s = s by
      simp only [countMerge, countCreate, Nat.zero_add]
      omega] at h
  · exact countDeserializeMerge_serialize t s hlt

/-- Witness for C2 at the state holding one add. -/
theorem serialize_roundtrip_witness :
    countDeserializeMerge countCreate (countSerialize (countAdd countCreate)) =
        some (countAdd countCreate, []) ∧
    countDeserializeMerge 2 (countSerialize (countAdd countCreate)) =
        some (countMerge 2 (countAdd countCreate), []) :=
  serialize_roundtrip (countAdd countCreate) 2
    (CountNonEmpty.added CountReached.created)

/-- Modelled from the spec: a generic aggregate function whose underlying
reduction is the binary operation op with identity unit; add folds one row
value through embed, merge combines two partial states, finalize produces
the result value. Concrete aggregate function implementations are not under
src, only the virtual interface is. -/
structure ReductionAggregate (β M R : Type) where
  op : M → M → M
  unit : M
  embed : β → M
  finalize : M → R

/-- State built by create. -/
def ReductionAggregate.create {β M R : Type} (A : ReductionAggregate β M R) : M :=
  A.unit

/-- One add call folding the row value x into the state. -/
def ReductionAggregate.add {β M R : Type} (A : ReductionAggregate β M R)
    (s : M) (x : β) : M :=
  A.op s (A.embed x)

/-- One merge call combining the state at rhs into s. -/
def ReductionAggregate.merge {β M R : Type} (A : ReductionAggregate β M R)
    (s rhs : M) : M :=
  A.op s rhs

/-- Valid states of one descriptor: those constructed by create and updated
by add and merge. -/
inductive ReductionAggregate.Reached {β M R : Type} (A : ReductionAggregate β M R) :
    M → Prop where
  | created : ReductionAggregate.Reached A A.create
  | added : ∀ {s : M} (x : β), ReductionAggregate.Reached A s →
      ReductionAggregate.Reached A (A.add s x)
  | merged : ∀ {s t : M}, ReductionAggregate.Reached A s →
      ReductionAggregate.Reached A t →
      ReductionAggregate.Reached A (A.merge s t)

/-- C1: for every aggregate function whose underlying reduction is
mathematically associative and commutative, merging valid states in any
grouping or order yields the same finalized result: both associations agree,
merging B into A agrees with merging A into B, and merge of B and A followed
by merging C agrees as well. -/
theorem merge_assoc_comm {β M R : Type} (A : ReductionAggregate β M R)
    (hassoc : ∀ a b c, A.op (A.op a b) c = A.op a (A.op b c))
    (hcomm : ∀ a b, A.op a b = A.op b a)
    (sA sB sC : M)
    (hA : A.Reached sA) (hB : A.Reached sB) (hC : A.Reached sC) :
    A.finalize (A.merge (A.merge sA sB) sC) =
        A.finalize (A.merge sA (A.merge sB sC)) ∧
    A.finalize (A.merge sA sB) = A.finalize (A.merge sB sA) ∧
    A.finalize (A.merge (A.merge sB sA) sC) =
        A.finalize (A.merge (A.merge sA sB) sC) := by
  unfold ReductionAggregate.merge
  exact ⟨congrArg A.finalize (hassoc sA sB sC),
    congrArg A.finalize (hcomm sA sB),
    congrArg A.finalize (congrArg (fun x => A.op x sC) (hcomm sB sA))⟩

/-- Count as a reduction aggregate: the reduction adds counters modulo
2 ^ 64, every row embeds as one. -/
def countReduction : ReductionAggregate Unit Nat Nat :=
  ⟨countMerge, countCreate, fun _ => 1, countFinalize⟩

/-- The count reduction is associative. -/
theorem countMerge_assoc (a b c : Nat) :
    countMerge (countMerge a b) c = countMerge a (countMerge b c) := by
  simp [countMerge, Nat.mod_add_mod, Nat.add_mod_mod, Nat.add_assoc]

/-- The count reduction is commutative. -/
theorem countMerge_comm (a b : Nat) : countMerge a b = countMerge b a := by
  simp [countMerge, Nat.add_comm]

/-- State one of the count reduction is valid. -/
theorem countReduction_reached_one : countReduction.Reached 1 :=
  ReductionAggregate.Reached.added () ReductionAggregate.Reached.created

/-- State two of the count reduction is valid. -/
theorem countReduction_reached_two : countReduction.Reached 2 :=
  ReductionAggregate.Reached.added () countReduction_reached_one

/-- State three of the count reduction is valid. -/
theorem countReduction_reached_three : countReduction.Reached 3 :=
  ReductionAggregate.Reached.added () countReduction_reached_two

/-- Witness for C1 at the count function and the states 1, 2 and 3. -/
theorem merge_assoc_comm_witness :
    countReduction.finalize (countReduction.merge (countReduction.merge 1 2) 3) =
        countReduction.finalize (countReduction.merge 1 (countReduction.merge 2 3)) ∧
    countReduction.finalize (countReduction.merge 1 2) =
        countReduction.finalize (countReduction.merge 2 1) ∧
    countReduction.finalize (countReduction.merge (countReduction.merge 2 1) 3) =
        countReduction.finalize (countReduction.merge (countReduction.merge 1 2) 3) :=
  merge_assoc_comm countReduction countMerge_assoc countMerge_comm 1 2 3
    countReduction_reached_one countReduction_reached_two countReduction_reached_three

/-- Modelled from the spec: merge(place, rhs) at the memory level. The rhs
pointer is const in the interface, so only the state at place is written. -/
def mergePlace (mem : Nat → Option Nat) (place rhs : Nat) : Nat → Option Nat :=
  fun a =>
    if a = place then
      match mem place, mem rhs with
      | some s, some t => some (countMerge s t)
      | other, _ => other
    else mem a

/-- Modelled from the spec: insertResultInto(place, to). The state pointer is
const in the interface, so memory comes back untouched and one finalized
value is appended to the output column. -/
def insertResultIntoPlace (mem : Nat → Option Nat) (place : Nat) (col : List Nat) :
    (Nat → Option Nat) × List Nat :=
  (mem, match mem place with
        | some s => col ++ [countFinalize s]
        | none => col)

/-- Concrete memory holding the count states 2 at address 0 and 3 at
address 1. -/
def twoStateMem : Nat → Option Nat :=
  fun a => if a = 0 then some 2 else if a = 1 then some 3 else none

/-- C6: merge leaves the state at the source address structurally unchanged —
still a valid, independently destroyable state equal to its pre-merge
value — while the target address holds the combined result. -/
theorem merge_preserves_source (mem : Nat → Option Nat) (place rhs s t : Nat)
    (hp : mem place = some s) (hr : mem rhs = some t) (hne : place ≠ rhs) :
    mergePlace mem place rhs rhs = mem rhs ∧
    mergePlace mem place rhs rhs = some t ∧
    mergePlace mem place rhs place = some (countMerge s t) := by
  have hrp : rhs ≠ place := fun h => hne h.symm
  refine ⟨?_, ?_, ?_⟩ <;> simp [mergePlace, hrp, hp, hr]

/-- Witness for C6 at a two-state memory. -/
theorem merge_preserves_source_witness :
    mergePlace twoStateMem 0 1 1 = twoStateMem 1 ∧
    mergePlace twoStateMem 0 1 1 = some 3 ∧
    mergePlace twoStateMem 0 1 0 = some (countMerge 2 3) :=
  merge_preserves_source twoStateMem 0 1 2 3 rfl rfl (by decide)

/-- C7: insertResultInto neither mutates nor destroys the state at the given
address: the memory is the pre-call memory, the state still holds its
pre-call value, and exactly one finalized value is appended to the output
column. -/
theorem insertResultInto_preserves_state (mem : Nat → Option Nat) (place s : Nat)
    (col : List Nat) (hp : mem place = some s) :
    (insertResultIntoPlace mem place col).1 = mem ∧
    (insertResultIntoPlace mem place col).1 place = some s ∧
    (insertResultIntoPlace mem place col).2 = col ++ [countFinalize s] := by
  refine ⟨rfl, hp, ?_⟩
  simp [insertResultIntoPlace, hp]

/-- Witness for C7 at a two-state memory. -/
theorem insertResultInto_preserves_state_witness :
    (insertResultIntoPlace twoStateMem 0 [9]).1 = twoStateMem ∧
    (insertResultIntoPlace twoStateMem 0 [9]).1 0 = some 2 ∧
    (insertResultIntoPlace twoStateMem 0 [9]).2 = [9] ++ [countFinalize 2] :=
  insertResultInto_preserves_state twoStateMem 0 2 [9] rfl

/-- Calls of the descriptor lifecycle. -/
inductive AggCall where
  | setArguments
  | setParameters
  | add
  | merge
  | serialize
  | insertResultInto
  deriving DecidableEq, Repr

/-- Binding state of one descriptor: whether setArguments and setParameters
have been called. -/
structure DescrState where
  argumentsSet : Bool
  parametersSet : Bool
  deriving DecidableEq, Repr

/-- Descriptor as the registry builds it, before any binding call. -/
def initialDescrState : DescrState := ⟨false, false⟩

/-- Failure of a call-sequencing precondition. -/
inductive LifecycleError where
  | preconditionViolation
  deriving DecidableEq, Repr

/-- Modelled from the spec: the binding-order contract of the descriptor —
setArguments must be called before any state operation, and a state
operation invoked earlier is rejected by precondition rather than producing
a result. The header declares the operations as pure virtual and carries no
enforcement code. -/
def stepCall (d : DescrState) : AggCall → Except LifecycleError DescrState
  | .setArguments => .ok ⟨true, d.parametersSet⟩
  | .setParameters => .ok ⟨d.argumentsSet, true⟩
  | .add => if d.argumentsSet then .ok d else .error .preconditionViolation
  | .merge => if d.argumentsSet then .ok d else .error .preconditionViolation
  | .serialize => if d.argumentsSet then .ok d else .error .preconditionViolation
  | .insertResultInto =>
      if d.argumentsSet then .ok d else .error .preconditionViolation

/-- Run of one call sequence on a descriptor, stopping at the first
rejection. -/
def runCalls (d : DescrState) : List AggCall → Except LifecycleError DescrState
  | [] => .ok d
  | c :: cs =>
    match stepCall d c with
    | .ok e => runCalls e cs
    | .error err => .error err

/-- A state operation before setArguments is rejected from every descriptor
whose arguments are not yet bound. -/
theorem runCalls_before_arguments (pre : List AggCall) :
    ∀ (post : List AggCall) (c : AggCall) (p : Bool),
      (c = AggCall.add ∨ c = AggCall.merge ∨ c = AggCall.serialize) →
      AggCall.setArguments ∉ pre →
      runCalls ⟨false, p⟩ (pre ++ c :: post) =
        Except.error LifecycleError.preconditionViolation := by
  induction pre with
  | nil =>
    intro post c p hc _
    rcases hc with h | h | h <;> subst h <;> simp [runCalls, stepCall]
  | cons d pre ih =>
    intro post c p hc hpre
    have hd : d ≠ AggCall.setArguments := fun h => hpre (h ▸ List.mem_cons_self _ _)
    have hpre2 : AggCall.setArguments ∉ pre := fun h => hpre (List.mem_cons_of_mem _ h)
    cases d with
    | setArguments => exact absurd rfl hd
    | setParameters =>
        simpa [runCalls, stepCall] using ih post c true hc hpre2
    | add => simp [runCalls, stepCall]
    | merge => simp [runCalls, stepCall]
    | serialize => simp [runCalls, stepCall]
    | insertResultInto => simp [runCalls, stepCall]

/-- C9: in every call sequence on a descriptor, an add, merge or serialize
call made before setArguments is rejected by the precondition — the run
fails and never silently produces a result. -/
theorem binding_order_enforced (pre post : List AggCall) (c : AggCall)
    (hc : c = AggCall.add ∨ c = AggCall.merge ∨ c = AggCall.serialize)
    (hpre : AggCall.setArguments ∉ pre) :
    runCalls initialDescrState (pre ++ c :: post) =
      Except.error LifecycleError.preconditionViolation :=
  runCalls_before_arguments pre post c false hc hpre

/-- Witness for C9 at the one-call sequence holding only an add. -/
theorem binding_order_enforced_witness :
    runCalls initialDescrState ([] ++ AggCall.add :: []) =
      Except.error LifecycleError.preconditionViolation :=
  binding_order_enforced [] [] AggCall.add (Or.inl rfl) (by simp)
